import Mathlib

/-!
Verification of the rank/popularity analysis scripts (s1.py, s3.py,
a5_collect.py, a5_analyze.py) of the network-dynamics homework repository.

Strings from the Python code are modelled as lists of characters
(Python string comparison and containment are code-point based, which
matches comparing the characters directly).  Dates are modelled by their
8-digit numeral YYYYMMDD, so comparing the numerals agrees with comparing
the calendar dates.  The floating-point correlation routine is modelled
over the real numbers (exact arithmetic idealisation of IEEE floats).
-/

namespace NetworkDynamics

/-! ## Character-list primitives (models of Python string operations) -/

/-- Model of Python startswith on character lists: the first argument is the
needle, the second the haystack. -/
def startsWithChars : List Char → List Char → Bool
  | [], _ => true
  | _ :: _, [] => false
  | a :: as, b :: bs => a == b && startsWithChars as bs

/-- Model of the Python containment test needle in hay on strings. -/
def containsSub (needle : List Char) : List Char → Bool
  | [] => needle.isEmpty
  | c :: rest => startsWithChars needle (c :: rest) || containsSub needle rest

/-- Model of Python str.lower (ASCII case folding, as used on the ASCII
track/video titles handled by the scripts). -/
def lowerStr (s : List Char) : List Char := s.map Char.toLower

/-- Model of Python str.endswith: does s end with the suffix suf. -/
def endsWithChars (suf s : List Char) : Bool :=
  startsWithChars suf.reverse s.reverse

/-- Model of Python str.split on a comma: splitOnComma s cuts s at every
comma; an input without commas yields the singleton list [s]. -/
def splitOnComma : List Char → List (List Char)
  | [] => [[]]
  | c :: rest =>
    if c == ',' then [] :: splitOnComma rest
    else
      match splitOnComma rest with
      | t :: ts => (c :: t) :: ts
      | [] => [[c]]

/-- Whitespace test used by the model of Python str.strip. -/
def isSpaceChar (c : Char) : Bool :=
  c == ' ' || c == '\t' || c == '\n' || c == '\r'

/-- Model of Python str.strip: drop leading and trailing whitespace. -/
def stripChars (s : List Char) : List Char :=
  ((s.dropWhile isSpaceChar).reverse.dropWhile isSpaceChar).reverse

/-! ## Entity Matcher (s3.py, _build_spotify_youtube_mapping) -/

/-- One YouTube video record as consumed by the matcher: its id and the
title found under snippet.title. -/
structure YtVideo where
  id : String
  title : List Char
deriving DecidableEq

/-- One Spotify track record as produced by iter_spotify_days: id,
track name and the comma-joined artist string. -/
structure SpTrack where
  id : String
  name : List Char
  artists : List Char
deriving DecidableEq

/-- The strict first-pass test of the matcher (s3.py line 311): the
lowercased video title must contain the (already lowercased) track name and
at least one of the (already lowercased) artist tokens. -/
def strictMatch (trackName : List Char) (artistTokens : List (List Char)) (v : YtVideo) : Bool :=
  containsSub trackName (lowerStr v.title) &&
    artistTokens.any (fun a => containsSub a (lowerStr v.title))

/-- The relaxed second-pass test of the matcher (s3.py line 319): the
lowercased video title must contain the track name only. -/
def relaxedMatch (trackName : List Char) (v : YtVideo) : Bool :=
  containsSub trackName (lowerStr v.title)

/-- The two-pass per-track matching loop of _build_spotify_youtube_mapping
(s3.py lines 306-324): scan the videos in order for the first strict match;
if none exists, scan again for the first relaxed match; otherwise no match. -/
def matchTrack (trackName : List Char) (artistTokens : List (List Char))
    (videos : List YtVideo) : Option String :=
  match videos.find? (strictMatch trackName artistTokens) with
  | some v => some v.id
  | none =>
    match videos.find? (relaxedMatch trackName) with
    | some v => some v.id
    | none => none

/-- The normalisation applied to a track before matching (s3.py lines
303-304): lowercase the name, and split the artists string on commas into
stripped, lowercased tokens. -/
def normTrackName (t : SpTrack) : List Char := lowerStr t.name

/-- Artist tokens of a track, as computed on s3.py line 304. -/
def normArtistTokens (t : SpTrack) : List (List Char) :=
  (splitOnComma t.artists).map (fun a => lowerStr (stripChars a))

/-- Model of a Python dict assignment m[k] = v on an insertion-ordered
association list: overwrite in place if the key is present, else append. -/
def dictInsert (m : List (String × String)) (k v : String) : List (String × String) :=
  if m.any (fun p => p.1 == k) then
    m.map (fun p => if p.1 == k then (k, v) else p)
  else m ++ [(k, v)]

/-- Model of a lookup in a Python dict built by a comprehension over an
association list: the last binding of a key wins. -/
def lookupLast {α : Type} (days : List (Nat × α)) (d : Nat) : Option α :=
  (days.reverse.find? (fun p => p.1 == d)).map Prod.snd

/-- Model of _build_spotify_youtube_mapping (s3.py lines 283-330), with the
two zip-loading steps abstracted into the day lists they produce.  Dates are
YYYYMMDD numerals.  The reference date is the smallest common date
(sorted(set and set)[0]); with no common date the mapping is empty. -/
def buildSpotifyYoutubeMapping (ytDays : List (Nat × List YtVideo))
    (spDays : List (Nat × List SpTrack)) : List (String × String) :=
  match ((ytDays.map Prod.fst).filter
      (fun d => (spDays.map Prod.fst).contains d)).min? with
  | none => []
  | some refDate =>
    match lookupLast ytDays refDate, lookupLast spDays refDate with
    | some ytVideos, some spTracks =>
      spTracks.foldl (fun m t =>
        match matchTrack (normTrackName t) (normArtistTokens t) ytVideos with
        | some yid => dictInsert m t.id yid
        | none => m) []
    | _, _ => []

/-! ### Helper lemmas about find? -/

/-- find? returns the element at the first index satisfying the predicate. -/
theorem find?_eq_of_first {α : Type} {p : α → Bool} :
    ∀ (l : List α) (i : Nat) (hi : i < l.length),
      p (l.get ⟨i, hi⟩) = true →
      (∀ j (hj : j < i), p (l.get ⟨j, Nat.lt_trans hj hi⟩) = false) →
      l.find? p = some (l.get ⟨i, hi⟩)
  | a :: t, 0, _, hp, _ => by
    exact List.find?_cons_of_pos t hp
  | a :: t, i + 1, hi, hp, hbefore => by
    have ha : p a = false := by
      have := hbefore 0 (Nat.succ_pos i)
      simpa using this
    have ht := find?_eq_of_first t i (Nat.lt_of_succ_lt_succ hi)
      (by simpa using hp)
      (fun j hj => by
        have := hbefore (j + 1) (Nat.succ_lt_succ hj)
        simpa using this)
    simpa [List.find?_cons, ha] using ht

/-- Example track record of the spec (section 8): primary name hello,
secondary token adele, both already lowercased. -/
def exPrimary : List Char := ("hello").data

/-- Example secondary tokens of the spec. -/
def exTokens : List (List Char) := [("adele").data]

/-- Example video b1 of the spec. -/
def exB1 : YtVideo := { id := "b1", title := ("Adele - Hello (Official Video)").data }

/-- Example video b2 of the spec. -/
def exB2 : YtVideo := { id := "b2", title := ("Someone - Hello There").data }

/-- Claim C1: the Entity Matcher maps a track to the first video (in scan
order) whose lowercased title contains the track's primary name and one of
its secondary tokens; failing that, to the first video whose title contains
the primary name only; otherwise it leaves the track unmapped.  On the
spec's concrete example the strict pass selects b1. -/
theorem entity_matcher_two_pass (tn : List Char) (toks : List (List Char))
    (videos : List YtVideo) :
    (∀ i (hi : i < videos.length),
        strictMatch tn toks (videos.get ⟨i, hi⟩) = true →
        (∀ j (hj : j < i), strictMatch tn toks (videos.get ⟨j, Nat.lt_trans hj hi⟩) = false) →
        matchTrack tn toks videos = some (videos.get ⟨i, hi⟩).id) ∧
    ((∀ v ∈ videos, strictMatch tn toks v = false) →
      ∀ i (hi : i < videos.length),
        relaxedMatch tn (videos.get ⟨i, hi⟩) = true →
        (∀ j (hj : j < i), relaxedMatch tn (videos.get ⟨j, Nat.lt_trans hj hi⟩) = false) →
        matchTrack tn toks videos = some (videos.get ⟨i, hi⟩).id) ∧
    ((∀ v ∈ videos, relaxedMatch tn v = false) →
      matchTrack tn toks videos = none) ∧
    matchTrack exPrimary exTokens [exB1, exB2] = some "b1" := by
  refine ⟨?_, ?_, ?_, ?_⟩
  · intro i hi hp hbefore
    have h := find?_eq_of_first videos i hi hp hbefore
    simp [matchTrack, h]
  · intro hnone i hi hp hbefore
    have hs : videos.find? (strictMatch tn toks) = none :=
      List.find?_eq_none.mpr (fun v hv => by simp [hnone v hv])
    have h := find?_eq_of_first videos i hi hp hbefore
    simp [matchTrack, hs, h]
  · intro hnone
    have hs : videos.find? (strictMatch tn toks) = none := by
      refine List.find?_eq_none.mpr (fun v hv => ?_)
      have : relaxedMatch tn v = false := hnone v hv
      simp [strictMatch, relaxedMatch] at this ⊢
      intro hc
      exact absurd hc (by simp [this])
    have hr : videos.find? (relaxedMatch tn) = none :=
      List.find?_eq_none.mpr (fun v hv => by simp [hnone v hv])
    simp [matchTrack, hs, hr]
  · rfl

/-- Witness for C1: on the spec's example the strict test holds of b1 at
index 0, and the matcher indeed selects b1. -/
theorem entity_matcher_two_pass_witness :
    strictMatch exPrimary exTokens exB1 = true ∧
    matchTrack exPrimary exTokens [exB1, exB2] = some "b1" := by
  refine ⟨by decide, ?_⟩
  have h := (entity_matcher_two_pass exPrimary exTokens [exB1, exB2]).1
    0 (by decide) (by decide)
    (fun j hj => absurd hj (Nat.not_lt_zero j))
  simpa using h

/-- Claim C6: when the two datasets share no snapshot date, the matcher
returns the empty mapping (and, being a total function, raises no error). -/
theorem matcher_empty_on_disjoint_dates (ytDays : List (Nat × List YtVideo))
    (spDays : List (Nat × List SpTrack))
    (h : ∀ d ∈ ytDays.map Prod.fst, d ∉ spDays.map Prod.fst) :
    buildSpotifyYoutubeMapping ytDays spDays = [] := by
  have hfilter : (ytDays.map Prod.fst).filter
      (fun d => (spDays.map Prod.fst).contains d) = [] := by
    refine List.filter_eq_nil_iff.mpr (fun d hd => ?_)
    simpa using h d hd
  unfold buildSpotifyYoutubeMapping
  rw [hfilter]
  rfl

/-- Witness for C6: two concrete single-day datasets with different dates
yield the empty mapping. -/
theorem matcher_empty_on_disjoint_dates_witness :
    (∀ d ∈ ([(20150101, ([] : List YtVideo))].map Prod.fst),
        d ∉ ([(20150102, ([] : List SpTrack))].map Prod.fst)) ∧
    buildSpotifyYoutubeMapping [(20150101, [])] [(20150102, [])] = [] := by
  refine ⟨by decide, ?_⟩
  exact matcher_empty_on_disjoint_dates _ _ (by decide)

/-! ## Rank/Statistics Engine: descending rank assignment
(s3.py compare_spotify_youtube_rankings lines 399-405, a5_analyze.py
plot_linear_distribution lines 44-45) -/

/-- An (id, metric) pair as fed into the rank assignment. -/
structure IdMetric where
  id : String
  metric : Int
deriving DecidableEq

/-- The before-relation of Python sorted(key=metric, reverse=True): a
stable sort keeps a before b exactly when b's metric does not exceed a's. -/
def descLe (a b : IdMetric) : Bool := decide (b.metric ≤ a.metric)

/-- Model of s3.py lines 400-405: sort by metric descending (stably) and
enumerate ranks starting at 1, pairing each entity with its rank. -/
def rankDescending (xs : List IdMetric) : List (IdMetric × Nat) :=
  (xs.mergeSort descLe).zip (List.range' 1 (xs.mergeSort descLe).length)

theorem descLe_trans : ∀ (a b c : IdMetric), descLe a b → descLe b c → descLe a c := by
  intro a b c hab hbc
  simp only [descLe, decide_eq_true_eq] at *
  omega

theorem descLe_total : ∀ (a b : IdMetric), descLe a b || descLe b a := by
  intro a b
  simp only [descLe, Bool.or_eq_true, decide_eq_true_eq]
  omega

/-- Claim C2: on every non-empty input the assigned ranks, read in output
order, are exactly 1..N; the metrics are non-increasing along increasing
rank; and the ranked entities are a permutation of the input. -/
theorem rank_assignment_ranks_and_monotone (xs : List IdMetric) (h : xs ≠ []) :
    (rankDescending xs).map Prod.snd = List.range' 1 xs.length ∧
    ((rankDescending xs).map Prod.fst).Pairwise (fun a b => b.metric ≤ a.metric) ∧
    ((rankDescending xs).map Prod.fst).Perm xs := by
  have hlen : (xs.mergeSort descLe).length = xs.length := by simp
  have hfst : (rankDescending xs).map Prod.fst = xs.mergeSort descLe := by
    apply List.map_fst_zip
    simp
  have hsnd : (rankDescending xs).map Prod.snd =
      List.range' 1 (xs.mergeSort descLe).length := by
    apply List.map_snd_zip
    simp
  refine ⟨by rw [hsnd, hlen], ?_, ?_⟩
  · rw [hfst]
    exact (List.sorted_mergeSort descLe_trans descLe_total xs).imp
      (fun hab => by simpa [descLe] using hab)
  · rw [hfst]
    exact List.mergeSort_perm xs descLe

/-- Witness for C2 at a concrete two-element input. -/
theorem rank_assignment_ranks_and_monotone_witness :
    (([⟨"a", 5⟩, ⟨"b", 7⟩] : List IdMetric) ≠ []) ∧
    ((rankDescending [⟨"a", 5⟩, ⟨"b", 7⟩]).map Prod.snd =
        List.range' 1 ([⟨"a", 5⟩, ⟨"b", 7⟩] : List IdMetric).length ∧
      ((rankDescending [⟨"a", 5⟩, ⟨"b", 7⟩]).map Prod.fst).Pairwise
        (fun a b => b.metric ≤ a.metric) ∧
      ((rankDescending [⟨"a", 5⟩, ⟨"b", 7⟩]).map Prod.fst).Perm
        [⟨"a", 5⟩, ⟨"b", 7⟩]) :=
  ⟨by decide, rank_assignment_ranks_and_monotone _ (by decide)⟩

/-- A two-element sublist pins down two positions, in order. -/
theorem pair_sublist_index {α : Type} {a b : α} :
    ∀ {l : List α}, List.Sublist [a, b] l →
      ∃ i j : Nat, i < j ∧ l[i]? = some a ∧ l[j]? = some b := by
  intro l h
  induction l with
  | nil => simp at h
  | cons c t ih =>
    cases h with
    | cons _ h' =>
      obtain ⟨i, j, hij, ha, hb⟩ := ih h'
      exact ⟨i + 1, j + 1, by omega, by simpa using ha, by simpa using hb⟩
    | cons₂ _ h' =>
      have hbmem : b ∈ t := List.singleton_sublist.mp h'
      obtain ⟨j, hj, hjb⟩ := List.getElem_of_mem hbmem
      refine ⟨0, j + 1, Nat.succ_pos j, by simp, ?_⟩
      simp only [List.getElem?_cons_succ]
      rw [List.getElem?_eq_getElem hj]
      exact congrArg some hjb

/-- Claim C3: the descending rank assignment is stable: if a precedes b in
the input and their metrics are equal, then a receives a strictly smaller
rank than b, each rank being one more than the output position. -/
theorem rank_assignment_stable (xs : List IdMetric) (a b : IdMetric)
    (hsub : List.Sublist [a, b] xs) (heq : a.metric = b.metric) :
    ∃ i j : Nat, i < j ∧ (rankDescending xs)[i]? = some (a, i + 1) ∧
      (rankDescending xs)[j]? = some (b, j + 1) := by
  have hle : descLe a b = true := by simp [descLe, heq]
  have hpair : List.Sublist [a, b] (xs.mergeSort descLe) :=
    List.pair_sublist_mergeSort descLe_trans descLe_total hle hsub
  obtain ⟨i, j, hij, ha, hb⟩ := pair_sublist_index hpair
  have hilen : i < (xs.mergeSort descLe).length := by
    by_contra hcon
    rw [List.getElem?_eq_none (Nat.le_of_not_lt hcon)] at ha
    cases ha
  have hjlen : j < (xs.mergeSort descLe).length := by
    by_contra hcon
    rw [List.getElem?_eq_none (Nat.le_of_not_lt hcon)] at hb
    cases hb
  refine ⟨i, j, hij, ?_, ?_⟩
  · refine List.getElem?_zip_eq_some.mpr ⟨ha, ?_⟩
    rw [List.getElem?_range' _ _ hilen]
    simp only [Option.some.injEq]
    omega
  · refine List.getElem?_zip_eq_some.mpr ⟨hb, ?_⟩
    rw [List.getElem?_range' _ _ hjlen]
    simp only [Option.some.injEq]
    omega

/-- Witness for C3: two distinct entities tied at metric 5 keep their
input order in the ranking. -/
theorem rank_assignment_stable_witness :
    List.Sublist [(⟨"a", 5⟩ : IdMetric), ⟨"b", 5⟩] [(⟨"a", 5⟩ : IdMetric), ⟨"b", 5⟩] ∧
    ∃ i j : Nat, i < j ∧
      (rankDescending [⟨"a", 5⟩, ⟨"b", 5⟩])[i]? = some (⟨"a", 5⟩, i + 1) ∧
      (rankDescending [⟨"a", 5⟩, ⟨"b", 5⟩])[j]? = some (⟨"b", 5⟩, j + 1) :=
  ⟨List.Sublist.refl _,
    rank_assignment_stable _ _ _ (List.Sublist.refl _) rfl⟩

/-! ## Collector (a5_collect.py): search_video_ids and save_dataset -/

/-- One iteration of the inner for-loop of search_video_ids (a5_collect.py
lines 72-76): the state is the collected id list together with the seen
set (modelled as a list); an unseen id is appended and recorded as seen. -/
def addVideoId (st : List String × List String) (vid : String) :
    List String × List String :=
  if st.2.contains vid then st else (st.1 ++ [vid], vid :: st.2)

/-- Processing one API response page: fold the inner loop over its items. -/
def processPage (st : List String × List String) (page : List String) :
    List String × List String :=
  page.foldl addVideoId st

/-- The while-loop of search_video_ids (a5_collect.py lines 60-81): before
each request the target is checked; the loop also stops when the response
has no next page token, i.e. when the page stream is exhausted. -/
def searchVideoIdsLoop (target : Nat) :
    List (List String) → List String × List String → List String
  | [], st => st.1
  | page :: rest, st =>
    if st.1.length < target then searchVideoIdsLoop target rest (processPage st page)
    else st.1

/-- Model of search_video_ids, with the paginated API responses abstracted
into the list of id pages they deliver. -/
def search_video_ids (pages : List (List String)) (target : Nat) : List String :=
  searchVideoIdsLoop target pages ([], [])

/-- The loop invariant of search_video_ids: the id list has no duplicates
and the seen set contains exactly its members. -/
theorem addVideoId_invariant (st : List String × List String) (vid : String)
    (hnd : st.1.Nodup) (hmem : ∀ x, x ∈ st.1 ↔ x ∈ st.2) :
    (addVideoId st vid).1.Nodup ∧
      (∀ x, x ∈ (addVideoId st vid).1 ↔ x ∈ (addVideoId st vid).2) := by
  unfold addVideoId
  by_cases hc : st.2.contains vid
  · simp only [hc, if_true]
    exact ⟨hnd, hmem⟩
  · have hc' : st.2.contains vid = false := by simpa using hc
    simp only [hc', Bool.false_eq_true, if_false]
    constructor
    · have hvid : vid ∉ st.1 := fun hin => by
        have hin2 : vid ∈ st.2 := (hmem vid).mp hin
        simp at hc
        exact hc hin2
      rw [List.nodup_append]
      exact ⟨hnd, List.nodup_singleton vid, by simpa using hvid⟩
    · intro x
      simp only [List.mem_append, List.mem_singleton, List.mem_cons,
        List.not_mem_nil, or_false]
      constructor
      · rintro (hx | rfl)
        · exact Or.inr ((hmem x).mp hx)
        · exact Or.inl rfl
      · rintro (rfl | hx)
        · exact Or.inr rfl
        · exact Or.inl ((hmem x).mpr hx)

theorem processPage_invariant (page : List String)
    (st : List String × List String)
    (hnd : st.1.Nodup) (hmem : ∀ x, x ∈ st.1 ↔ x ∈ st.2) :
    (processPage st page).1.Nodup ∧
      (∀ x, x ∈ (processPage st page).1 ↔ x ∈ (processPage st page).2) := by
  induction page generalizing st with
  | nil => exact ⟨hnd, hmem⟩
  | cons p rest ih =>
    have h := addVideoId_invariant st p hnd hmem
    exact ih (addVideoId st p) h.1 h.2

theorem searchVideoIdsLoop_nodup (target : Nat) (pages : List (List String))
    (st : List String × List String)
    (hnd : st.1.Nodup) (hmem : ∀ x, x ∈ st.1 ↔ x ∈ st.2) :
    (searchVideoIdsLoop target pages st).Nodup := by
  induction pages generalizing st with
  | nil => exact hnd
  | cons page rest ih =>
    unfold searchVideoIdsLoop
    by_cases hlt : st.1.length < target
    · simp only [hlt, if_true]
      have h := processPage_invariant page st hnd hmem
      exact ih (processPage st page) h.1 h.2
    · simp only [hlt, if_false]
      exact hnd

/-- Claim C9: for every page stream and target, the id-gathering step of the
collector returns a duplicate-free list of video ids. -/
theorem search_video_ids_nodup (pages : List (List String)) (target : Nat) :
    (search_video_ids pages target).Nodup :=
  searchVideoIdsLoop_nodup target pages ([], []) List.nodup_nil (by simp)

/-- The dataset object written by save_dataset (a5_collect.py lines
131-138), with the collection items abstract. -/
structure HipHopDataset (α : Type) where
  query : String
  videoCategoryId : String
  videoDuration : String
  collectedAt : String
  videoCount : Nat
  items : List α

/-- Model of save_dataset: build the dataset object from the collected
video records and the collection timestamp. -/
def save_dataset {α : Type} (videos : List α) (collectedAt : String) :
    HipHopDataset α :=
  { query := "hip hop music"
    videoCategoryId := "10"
    videoDuration := "short"
    collectedAt := collectedAt
    videoCount := videos.length
    items := videos }

/-- Claim C10: the saved dataset satisfies videoCount = length of its items
array, and its items array is exactly the input record list in order. -/
theorem save_dataset_consistent {α : Type} (videos : List α) (t : String) :
    (save_dataset videos t).videoCount = (save_dataset videos t).items.length ∧
      (save_dataset videos t).items = videos :=
  ⟨rfl, rfl⟩

/-! ## Rank/Statistics Engine: correlation (_spearman_correlation, s3.py
lines 333-354).  The float arithmetic is idealised over the real numbers,
and the float NaN sentinel is modelled as none. -/

/-- The local n and mean of the source (sum divided by length). -/
noncomputable def listMean (xs : List ℝ) : ℝ := xs.sum / xs.length

/-- The numerator num of the source: mean-centered dot product, summed over
the zipped sequences as in the Python generator expression. -/
noncomputable def corrNum (xs ys : List ℝ) : ℝ :=
  ((xs.zip ys).map (fun p => (p.1 - listMean xs) * (p.2 - listMean ys))).sum

/-- A denominator den of the source: the L2 norm of the mean-centered
sequence.  (In the guarded branch where it is used the source's shared n
equals each list's own length, so per-list means coincide with the
source's.) -/
noncomputable def corrDen (xs : List ℝ) : ℝ :=
  Real.sqrt ((xs.map (fun x => (x - listMean xs) ^ 2)).sum)

/-- Model of _spearman_correlation: NaN on length mismatch or emptiness, NaN
on a vanishing denominator, otherwise the Pearson quotient. -/
noncomputable def spearman_correlation (xs ys : List ℝ) : Option ℝ :=
  if xs.length ≠ ys.length ∨ xs.length = 0 then none
  else if corrDen xs = 0 ∨ corrDen ys = 0 then none
  else some (corrNum xs ys / (corrDen xs * corrDen ys))

/-- All elements of the sequence are equal (zero variance). -/
def allEqR (xs : List ℝ) : Prop := ∀ a ∈ xs, ∀ b ∈ xs, a = b

theorem sum_sq_nonneg (xs : List ℝ) (m : ℝ) :
    0 ≤ (xs.map (fun x => (x - m) ^ 2)).sum :=
  List.sum_nonneg (fun x hx => by
    obtain ⟨y, _, rfl⟩ := List.mem_map.mp hx
    positivity)

theorem sum_sq_eq_zero_iff (xs : List ℝ) (m : ℝ) :
    (xs.map (fun x => (x - m) ^ 2)).sum = 0 ↔ ∀ x ∈ xs, x = m := by
  induction xs with
  | nil => simp
  | cons a t ih =>
    simp only [List.map_cons, List.sum_cons, List.mem_cons]
    rw [add_eq_zero_iff_of_nonneg (by positivity) (sum_sq_nonneg t m)]
    constructor
    · rintro ⟨h1, h2⟩
      have ha : a = m := by
        have hsq : a - m = 0 := by
          have := pow_eq_zero_iff (n := 2) (by norm_num) |>.mp h1
          exact this
        linarith
      rintro x (rfl | hxt)
      · exact ha
      · exact ih.mp h2 x hxt
    · intro hall
      refine ⟨?_, ih.mpr (fun x hx => hall x (Or.inr hx))⟩
      have : a = m := hall a (Or.inl rfl)
      simp [this]

theorem sum_of_all_eq (xs : List ℝ) (c : ℝ) (h : ∀ x ∈ xs, x = c) :
    xs.sum = xs.length * c := by
  induction xs with
  | nil => simp
  | cons a t ih =>
    simp only [List.sum_cons, List.length_cons]
    rw [h a (by simp), ih (fun x hx => h x (by simp [hx]))]
    push_cast
    ring

theorem allEq_iff_eq_mean (xs : List ℝ) (hne : xs ≠ []) :
    allEqR xs ↔ ∀ x ∈ xs, x = listMean xs := by
  constructor
  · intro h x hx
    have hc : xs.head hne ∈ xs := List.head_mem hne
    have hall : ∀ y ∈ xs, y = xs.head hne := fun y hy => h y hy _ hc
    have hlen : (xs.length : ℝ) ≠ 0 :=
      Nat.cast_ne_zero.mpr (by simpa [List.length_eq_zero] using hne)
    have hmean : listMean xs = xs.head hne := by
      unfold listMean
      rw [sum_of_all_eq xs _ hall]
      exact mul_div_cancel_left₀ _ hlen
    rw [hmean]
    exact hall x hx
  · intro h a ha b hb
    rw [h a ha, h b hb]

theorem corrDen_eq_zero_iff (xs : List ℝ) (hne : xs ≠ []) :
    corrDen xs = 0 ↔ allEqR xs := by
  unfold corrDen
  rw [Real.sqrt_eq_zero (sum_sq_nonneg xs (listMean xs)), sum_sq_eq_zero_iff]
  exact (allEq_iff_eq_mean xs hne).symm

/-- Claim C4: the correlation returns the NaN sentinel exactly on empty
input, length mismatch, or a zero-variance sequence; in every other case it
returns some finite Pearson value. -/
theorem correlation_nan_iff (xs ys : List ℝ) :
    spearman_correlation xs ys = none ↔
      xs.length ≠ ys.length ∨ xs = [] ∨ allEqR xs ∨ allEqR ys := by
  by_cases h1 : xs.length ≠ ys.length ∨ xs.length = 0
  · unfold spearman_correlation
    rw [if_pos h1]
    simp only [true_iff]
    rcases h1 with h1 | h1
    · exact Or.inl h1
    · exact Or.inr (Or.inl (List.length_eq_zero.mp h1))
  · push_neg at h1
    obtain ⟨hlen, hlen0⟩ := h1
    have hxne : xs ≠ [] := by
      intro hcon
      exact hlen0 (by simp [hcon])
    have hyne : ys ≠ [] := by
      intro hcon
      exact hlen0 (by simpa [hcon, List.length_eq_zero] using hlen)
    unfold spearman_correlation
    rw [if_neg (by simp [hlen, hlen0, hyne])]
    by_cases h2 : corrDen xs = 0 ∨ corrDen ys = 0
    · rw [if_pos h2]
      simp only [true_iff]
      rcases h2 with h2 | h2
      · exact Or.inr (Or.inr (Or.inl ((corrDen_eq_zero_iff xs hxne).mp h2)))
      · exact Or.inr (Or.inr (Or.inr ((corrDen_eq_zero_iff ys hyne).mp h2)))
    · rw [if_neg h2]
      push_neg at h2
      simp only [reduceCtorEq, false_iff]
      push_neg
      refine ⟨hlen, hxne, ?_, ?_⟩
      · exact fun hall => h2.1 ((corrDen_eq_zero_iff xs hxne).mpr hall)
      · exact fun hall => h2.2 ((corrDen_eq_zero_iff ys hyne).mpr hall)

theorem zip_self_sum (xs : List ℝ) (m : ℝ) :
    ((xs.zip xs).map (fun p => (p.1 - m) * (p.2 - m))).sum =
      (xs.map (fun x => (x - m) ^ 2)).sum := by
  induction xs with
  | nil => simp
  | cons a t ih =>
    simp only [List.zip_cons_cons, List.map_cons, List.sum_cons, ih]
    ring

/-- Claim C5: on a non-degenerate sequence (some two elements differ), the
correlation of the sequence with itself is exactly one. -/
theorem correlation_self_one (xs : List ℝ) (h : ∃ a ∈ xs, ∃ b ∈ xs, a ≠ b) :
    spearman_correlation xs xs = some 1 := by
  obtain ⟨a, ha, b, hb, hab⟩ := h
  have hne : xs ≠ [] := List.ne_nil_of_mem ha
  have hnall : ¬allEqR xs := fun hall => hab (hall a ha b hb)
  have hden : corrDen xs ≠ 0 :=
    fun h0 => hnall ((corrDen_eq_zero_iff xs hne).mp h0)
  have hlen0 : xs.length ≠ 0 := by simpa [List.length_eq_zero] using hne
  unfold spearman_correlation
  rw [if_neg (by simp [hlen0]), if_neg (by simp [hden])]
  have hS : corrNum xs xs = (xs.map (fun x => (x - listMean xs) ^ 2)).sum :=
    zip_self_sum xs (listMean xs)
  have hmul : corrDen xs * corrDen xs =
      (xs.map (fun x => (x - listMean xs) ^ 2)).sum :=
    Real.mul_self_sqrt (sum_sq_nonneg _ _)
  have hS0 : (xs.map (fun x => (x - listMean xs) ^ 2)).sum ≠ 0 := by
    intro h0
    exact hden (by unfold corrDen; rw [h0]; exact Real.sqrt_zero)
  rw [hS, hmul, div_self hS0]

/-- Witness for C5 at the concrete sequence [0, 1]. -/
theorem correlation_self_one_witness :
    (∃ a ∈ [(0 : ℝ), 1], ∃ b ∈ [(0 : ℝ), 1], a ≠ b) ∧
    spearman_correlation [(0 : ℝ), 1] [(0 : ℝ), 1] = some 1 :=
  ⟨⟨0, by simp, 1, by simp, by simp⟩,
    correlation_self_one _ ⟨0, by simp, 1, by simp, by simp⟩⟩

/-! ## Dataset Loader (s3.py iter_youtube_days, s1.py load_youtube_from_zip)

Archives are modelled as association lists from member names (character
lists, possibly with folder components separated by the slash) to the parsed
documents they hold.  A date is the YYYYMMDD numeral of its token, so
comparing numerals agrees with comparing dates. -/

/-- The member-name suffix selecting JSON documents. -/
def jsonSuffix : List Char := (".json").data

/-- Test for an ASCII digit character (code points 48 to 57), the model of
the digit checks done by Python isdigit and strptime on these tokens. -/
def isDigitChar (c : Char) : Bool := 48 ≤ c.toNat && c.toNat ≤ 57

/-- Numeric value of a string of digit characters, most significant first. -/
def digitsVal : List Char → Nat
  | [] => 0
  | c :: cs => (c.toNat - 48) * 10 ^ cs.length + digitsVal cs

/-- Gregorian leap-year rule, as applied by the datetime library. -/
def isLeapYear (y : Nat) : Bool :=
  (y % 4 == 0 && y % 100 != 0) || y % 400 == 0

/-- Days in a month, as validated by the datetime library. -/
def daysInMonth (y m : Nat) : Nat :=
  if m = 2 then (if isLeapYear y then 29 else 28)
  else if m = 4 ∨ m = 6 ∨ m = 9 ∨ m = 11 then 30 else 31

/-- Calendar validity of a YYYYMMDD numeral: the check performed by
strptime on the candidate date, namely year at least datetime.MINYEAR = 1
(the upper bound MAXYEAR = 9999 is automatic for an 8-digit numeral),
month 1-12, and day within the month. -/
def validDateNum (n : Nat) : Bool :=
  decide (1 ≤ n / 10000) &&
    decide (1 ≤ n / 100 % 100) && decide (n / 100 % 100 ≤ 12) &&
    decide (1 ≤ n % 100) &&
    decide (n % 100 ≤ daysInMonth (n / 10000) (n / 100 % 100))

/-- Model of parsing a filename date token with strptime format YYYYMMDD:
the token must be exactly eight digits naming a valid calendar date,
otherwise parsing fails. -/
def parseDate8 (s : List Char) : Option Nat :=
  if s.length = 8 ∧ (∀ c ∈ s, isDigitChar c = true) then
    if validDateNum (digitsVal s) then some (digitsVal s) else none
  else none

/-- Model of os.path.basename: the part after the last slash. -/
def basenameChars (s : List Char) : List Char :=
  (s.reverse.takeWhile (fun c => !(c == '/'))).reverse

/-- The date token of a member name: basename split at the first
underscore, first field (split of the sources). -/
def dateToken (s : List Char) : List Char :=
  (basenameChars s).takeWhile (fun c => !(c == '_'))

/-- Code-point lexicographic order on names, the model of Python string
comparison used by sorted on the member names. -/
def lexLe : List Char → List Char → Bool
  | [], _ => true
  | _ :: _, [] => false
  | a :: as, b :: bs =>
    if a.toNat < b.toNat then true
    else if a.toNat = b.toNat then lexLe as bs
    else false

/-- Model of iter_youtube_days (s3.py lines 80-102): keep the JSON members,
sort them by full member name, and parse each date token with strptime;
a token that fails to parse raises, modelled as an error that aborts the
iteration. -/
def iterYoutubeDays {α : Type} (entries : List (List Char × α)) :
    Except Unit (List (Nat × α)) :=
  ((entries.filter (fun e => endsWithChars jsonSuffix e.1)).mergeSort
      (fun e1 e2 => lexLe e1.1 e2.1)).mapM
    (fun e =>
      match parseDate8 (dateToken e.1) with
      | some d => Except.ok (d, e.2)
      | none => Except.error ())

/-- Top-level shape of one parsed JSON document: the expected flat array of
item records, or anything else. -/
inductive TopLevelDoc (ι : Type) where
  | arr (items : List ι)
  | nonArr

/-- The loader error taxonomy of the spec: dataNotFound models the
FileNotFoundError raises of the sources, malformedDataset models the
TypeError raise on an unexpected top-level shape. -/
inductive LoadError where
  | dataNotFound
  | malformedDataset
deriving DecidableEq

/-- Row production for one member of the archive in load_youtube_from_zip
(s1.py lines 68-116): an array document contributes one row per item,
tagged with the member's parsed date (none when the token does not parse);
any other top-level shape raises the malformed-dataset error. -/
def rowsOfEntry {ι : Type} (e : List Char × TopLevelDoc ι) :
    Except LoadError (List (Option Nat × ι)) :=
  match e.2 with
  | TopLevelDoc.arr items =>
    Except.ok (items.map (fun it => (parseDate8 (dateToken e.1), it)))
  | TopLevelDoc.nonArr => Except.error LoadError.malformedDataset

/-- Model of load_youtube_from_zip (s1.py lines 38-121): a missing archive
and an archive without JSON members both raise FileNotFoundError; otherwise
the JSON members are processed in archive order and their rows
concatenated. -/
def load_youtube_from_zip {ι : Type}
    (src : Option (List (List Char × TopLevelDoc ι))) :
    Except LoadError (List (Option Nat × ι)) :=
  match src with
  | none => Except.error LoadError.dataNotFound
  | some entries =>
    if (entries.filter (fun e => endsWithChars jsonSuffix (lowerStr e.1))).isEmpty then
      Except.error LoadError.dataNotFound
    else
      ((entries.filter (fun e => endsWithChars jsonSuffix (lowerStr e.1))).mapM
        rowsOfEntry).map List.flatten

/-! ### Lexicographic order lemmas -/

theorem lexLe_cons_iff (a b : Char) (as bs : List Char) :
    lexLe (a :: as) (b :: bs) = true ↔
      a.toNat < b.toNat ∨ (a.toNat = b.toNat ∧ lexLe as bs = true) := by
  simp only [lexLe]
  by_cases h1 : a.toNat < b.toNat
  · simp [h1]
  · by_cases h2 : a.toNat = b.toNat <;> simp [h1, h2]

theorem lexLe_total : ∀ (s t : List Char), lexLe s t || lexLe t s
  | [], _ => by simp [lexLe]
  | _ :: _, [] => by simp [lexLe]
  | a :: as, b :: bs => by
    rcases Nat.lt_trichotomy a.toNat b.toNat with h | h | h
    · simp [lexLe_cons_iff, h]
    · have := lexLe_total as bs
      simp only [Bool.or_eq_true] at this
      rcases this with h' | h'
      · simp [lexLe_cons_iff, h, h']
      · simp [lexLe_cons_iff, h.symm, h']
    · simp [lexLe_cons_iff, h]

theorem lexLe_trans : ∀ (s t r : List Char),
    lexLe s t → lexLe t r → lexLe s r
  | [], _, _, _, _ => by simp [lexLe]
  | _ :: _, [], _, h, _ => by simp [lexLe] at h
  | _ :: _, _ :: _, [], _, h => by simp [lexLe] at h
  | a :: as, b :: bs, c :: cs, h1, h2 => by
    rw [lexLe_cons_iff] at h1 h2 ⊢
    rcases h1 with h1 | ⟨h1e, h1t⟩
    · rcases h2 with h2 | ⟨h2e, _⟩
      · exact Or.inl (Nat.lt_trans h1 h2)
      · exact Or.inl (h2e ▸ h1)
    · rcases h2 with h2 | ⟨h2e, h2t⟩
      · exact Or.inl (h1e ▸ h2)
      · exact Or.inr ⟨h1e.trans h2e, lexLe_trans as bs cs h1t h2t⟩

theorem digitsVal_lt (s : List Char) (h : ∀ c ∈ s, isDigitChar c = true) :
    digitsVal s < 10 ^ s.length := by
  induction s with
  | nil => simp [digitsVal]
  | cons c cs ih =>
    have hc := h c (by simp)
    simp only [isDigitChar, Bool.and_eq_true, decide_eq_true_eq] at hc
    have iht := ih (fun x hx => h x (by simp [hx]))
    simp only [digitsVal, List.length_cons]
    have h9 : c.toNat - 48 ≤ 9 := by omega
    have hmul : (c.toNat - 48) * 10 ^ cs.length ≤ 9 * 10 ^ cs.length :=
      Nat.mul_le_mul_right _ h9
    have hpow : 10 ^ (cs.length + 1) = 10 * 10 ^ cs.length := by ring
    omega

theorem digitsVal_le_of_lexLe :
    ∀ (s t u v : List Char), s.length = t.length →
      (∀ c ∈ s, isDigitChar c = true) → (∀ c ∈ t, isDigitChar c = true) →
      lexLe (s ++ u) (t ++ v) = true → digitsVal s ≤ digitsVal t
  | [], t, _, _, hlen, _, _, _ => by
    have : t = [] := List.length_eq_zero.mp hlen.symm
    simp [this, digitsVal]
  | a :: as, [], _, _, hlen, _, _, _ => by simp at hlen
  | a :: as, b :: bs, u, v, hlen, hds, hdt, hlex => by
    have hlen' : as.length = bs.length := by simpa using hlen
    have ha := hds a (by simp)
    have hb := hdt b (by simp)
    simp only [isDigitChar, Bool.and_eq_true, decide_eq_true_eq] at ha hb
    simp only [List.cons_append, lexLe_cons_iff] at hlex
    simp only [digitsVal, hlen']
    rcases hlex with hab | ⟨hab, htail⟩
    · have h1 : digitsVal as < 10 ^ as.length :=
        digitsVal_lt as (fun x hx => hds x (by simp [hx]))
      have h2 : (a.toNat - 48 + 1) * 10 ^ bs.length ≤
          (b.toNat - 48) * 10 ^ bs.length :=
        Nat.mul_le_mul_right _ (by omega)
      have h3 : (a.toNat - 48 + 1) * 10 ^ bs.length =
          (a.toNat - 48) * 10 ^ bs.length + 10 ^ bs.length := by ring
      rw [hlen'] at h1
      omega
    · have := digitsVal_le_of_lexLe as bs u v hlen'
        (fun x hx => hds x (by simp [hx])) (fun x hx => hdt x (by simp [hx]))
        htail
      rw [hab]
      omega

/-! ### Well-formed member names and loader helper lemmas -/

/-- A member name of the uniform shape the archives use: no folder part,
a date token of exactly eight digits naming a valid calendar date,
terminated by an underscore, and the JSON suffix. -/
@[reducible] def wfName (name : List Char) : Prop :=
  (('/' : Char) ∉ name) ∧
  (dateToken name).length = 8 ∧
  (∀ c ∈ dateToken name, isDigitChar c = true) ∧
  validDateNum (digitsVal (dateToken name)) = true ∧
  name.dropWhile (fun c => !(c == '_')) ≠ [] ∧
  endsWithChars jsonSuffix name = true

theorem basenameChars_of_no_slash (s : List Char) (h : ('/' : Char) ∉ s) :
    basenameChars s = s := by
  unfold basenameChars
  have hself : s.reverse.takeWhile (fun c => !(c == '/')) = s.reverse := by
    rw [List.takeWhile_eq_self_iff]
    intro x hx
    have hxs : x ∈ s := by simpa using hx
    have hne : x ≠ '/' := fun hcon => h (hcon ▸ hxs)
    simp [hne]
  rw [hself, List.reverse_reverse]

theorem dropWhile_head_not {α : Type} (p : α → Bool) :
    ∀ (l : List α) (c : α) (t : List α), l.dropWhile p = c :: t → p c = false := by
  intro l
  induction l with
  | nil => intro c t h; simp at h
  | cons a l ih =>
    intro c t h
    rw [List.dropWhile_cons] at h
    by_cases hp : p a
    · rw [if_pos hp] at h
      exact ih c t h
    · rw [if_neg hp] at h
      cases h
      simpa using hp

theorem wfName_split (name : List Char) (h : wfName name) :
    ∃ rest, name = dateToken name ++ '_' :: rest := by
  obtain ⟨hns, -, -, -, hdrop, -⟩ := h
  have hbase : basenameChars name = name := basenameChars_of_no_slash name hns
  cases hd : name.dropWhile (fun c => !(c == '_')) with
  | nil => exact absurd hd hdrop
  | cons c rest =>
    have hc : (!(c == '_')) = false := dropWhile_head_not _ name c rest hd
    have hceq : c = '_' := by simpa using hc
    refine ⟨rest, ?_⟩
    conv_lhs => rw [← List.takeWhile_append_dropWhile (fun c => !(c == '_')) name]
    rw [hd, hceq]
    simp only [dateToken, hbase]

theorem parseDate8_of_wf (name : List Char) (h : wfName name) :
    parseDate8 (dateToken name) = some (digitsVal (dateToken name)) := by
  obtain ⟨-, hlen, hdig, hval, -, -⟩ := h
  unfold parseDate8
  rw [if_pos ⟨hlen, hdig⟩, if_pos hval]

theorem mapM_except_ok {α β ε : Type} (f : α → Except ε β) (g : α → β) :
    ∀ (l : List α), (∀ e ∈ l, f e = Except.ok (g e)) →
      l.mapM f = Except.ok (l.map g) := by
  intro l h
  induction l with
  | nil => rfl
  | cons a t ih =>
    rw [List.mapM_cons, h a (by simp), ih (fun e he => h e (by simp [he]))]
    rfl

theorem mapM_except_error {α β ε : Type} (f : α → Except ε β) (err : ε)
    (hf : ∀ e, f e = Except.error err ∨ ∃ b, f e = Except.ok b) :
    ∀ (l : List α), (∃ e ∈ l, f e = Except.error err) →
      l.mapM f = Except.error err := by
  intro l
  induction l with
  | nil =>
    rintro ⟨e, he, -⟩
    simp at he
  | cons a t ih =>
    rintro ⟨e, he, hfe⟩
    rw [List.mapM_cons]
    rcases List.mem_cons.mp he with rfl | het
    · rw [hfe]
      rfl
    · rcases hf a with ha | ⟨b, hb⟩
      · rw [ha]
        rfl
      · simp only [hb, ih ⟨e, het, hfe⟩]
        rfl

/-- Evaluation of mergeSort on a two-element list (the abstract mergeSort
of the library is defined by well-founded recursion, so closed instances
are computed through this equation). -/
theorem mergeSort_two {α : Type} (le : α → α → Bool) (a b : α) :
    List.mergeSort [a, b] le = if le a b then [a, b] else [b, a] := by
  rw [List.mergeSort]
  simp only [List.splitInTwo_fst, List.splitInTwo_snd]
  norm_num
  by_cases h : le a b <;> simp [h, List.merge, List.mergeSort]

/-- The per-member row list used to state that the loader succeeds. -/
def rowsVal {ι : Type} (e : List Char × TopLevelDoc ι) :
    List (Option Nat × ι) :=
  match e.2 with
  | TopLevelDoc.arr items =>
    items.map (fun it => (parseDate8 (dateToken e.1), it))
  | TopLevelDoc.nonArr => []

theorem rowsOfEntry_shape {ι : Type} (e : List Char × TopLevelDoc ι) :
    rowsOfEntry e = Except.error LoadError.malformedDataset ∨
      ∃ b, rowsOfEntry e = Except.ok b := by
  obtain ⟨n, d⟩ := e
  cases d
  · exact Or.inr ⟨_, rfl⟩
  · exact Or.inl rfl

/-- Unfolding equation of the loader on a present archive. -/
theorem load_some_eq {ι : Type} (entries : List (List Char × TopLevelDoc ι)) :
    load_youtube_from_zip (some entries) =
      if (entries.filter (fun e => endsWithChars jsonSuffix (lowerStr e.1))).isEmpty then
        Except.error LoadError.dataNotFound
      else
        ((entries.filter (fun e => endsWithChars jsonSuffix (lowerStr e.1))).mapM
          rowsOfEntry).map List.flatten := rfl

/-- Counterexample to claim C7 as stated: (i) the snapshot iterator fails
with an error on a document whose date token does not parse, instead of
including it as dateless; (ii) with members in different folders the yield
order follows the full member name, not the parsed date, so the dates come
out descending. -/
theorem dataset_loader_order_counterexample :
    iterYoutubeDays (α := Unit) [((("baddate_data.json").data), ())] =
      Except.error () ∧
    ∃ l, iterYoutubeDays (α := Unit)
        [((("b/20150101_d.json").data), ()), ((("a/20150102_d.json").data), ())] =
        Except.ok l ∧ l.map Prod.fst = [20150102, 20150101] := by
  constructor
  · have hj : endsWithChars jsonSuffix (("baddate_data.json").data) = true := by
      decide
    have hp : parseDate8 (dateToken (("baddate_data.json").data)) = none := by
      decide
    unfold iterYoutubeDays
    simp [List.filter_cons, hj, List.mergeSort_singleton, List.mapM_cons, hp]
    rfl
  · refine ⟨[(20150102, ()), (20150101, ())], ?_, rfl⟩
    have hj1 : endsWithChars jsonSuffix (("b/20150101_d.json").data) = true := by
      decide
    have hj2 : endsWithChars jsonSuffix (("a/20150102_d.json").data) = true := by
      decide
    have hlex : lexLe (("b/20150101_d.json").data) (("a/20150102_d.json").data)
        = false := by decide
    have hp1 : parseDate8 (dateToken (("b/20150101_d.json").data)) =
        some 20150101 := by decide
    have hp2 : parseDate8 (dateToken (("a/20150102_d.json").data)) =
        some 20150102 := by decide
    unfold iterYoutubeDays
    simp only [List.filter_cons, hj1, hj2, if_true, List.filter_nil]
    rw [mergeSort_two]
    simp only [hlex, Bool.false_eq_true, if_false, List.mapM_cons, hp1, hp2,
      List.mapM_nil]
    rfl

/-- Claim C7 (amended): the snapshot iterator yields documents in
lexicographic member-name order; for an archive of well-formed single-folder
names this order is ascending in the parsed date, the yielded dates being a
permutation of the date tokens, and a date token that fails to parse aborts
the iteration (as witnessed by the counterexample).  The flat row loader of
s1, by contrast, does include a document whose token fails to parse, with a
null date (second conjunct, with parseDate8 evaluating to none there). -/
theorem dataset_loader_order_amended {α ι : Type} :
    (∀ (entries : List (List Char × α)),
      (∀ e ∈ entries, wfName e.1) →
      ∃ l, iterYoutubeDays entries = Except.ok l ∧
        List.Chain' (fun a b => a ≤ b) (l.map Prod.fst) ∧
        (l.map Prod.fst).Perm
          (entries.map (fun e => digitsVal (dateToken e.1)))) ∧
    (∀ (name : List Char) (items : List ι),
      endsWithChars jsonSuffix (lowerStr name) = true →
      load_youtube_from_zip (some [(name, TopLevelDoc.arr items)]) =
        Except.ok (items.map (fun it => (parseDate8 (dateToken name), it)))) := by
  constructor
  · intro entries hwf
    have hfilter : entries.filter (fun e => endsWithChars jsonSuffix e.1)
        = entries :=
      List.filter_eq_self.mpr (fun e he => (hwf e he).2.2.2.2.2)
    have htrans : ∀ (x y z : List Char × α),
        (fun e1 e2 : List Char × α => lexLe e1.1 e2.1) x y →
        (fun e1 e2 : List Char × α => lexLe e1.1 e2.1) y z →
        (fun e1 e2 : List Char × α => lexLe e1.1 e2.1) x z :=
      fun x y z h1 h2 => lexLe_trans _ _ _ h1 h2
    have htotal : ∀ (x y : List Char × α),
        (fun e1 e2 : List Char × α => lexLe e1.1 e2.1) x y ||
        (fun e1 e2 : List Char × α => lexLe e1.1 e2.1) y x :=
      fun x y => lexLe_total _ _
    have hsortedwf : ∀ e ∈ entries.mergeSort
        (fun e1 e2 : List Char × α => lexLe e1.1 e2.1), wfName e.1 :=
      fun e he => hwf e (List.mem_mergeSort.mp he)
    have hpw := List.sorted_mergeSort htrans htotal entries
    refine ⟨(entries.mergeSort (fun e1 e2 : List Char × α => lexLe e1.1 e2.1)).map
        (fun e => (digitsVal (dateToken e.1), e.2)), ?_, ?_, ?_⟩
    · unfold iterYoutubeDays
      rw [hfilter]
      refine mapM_except_ok _ _ _ (fun e he => ?_)
      rw [parseDate8_of_wf e.1 (hsortedwf e he)]
    · have hpairwise : List.Pairwise (fun a b : Nat => a ≤ b)
          ((entries.mergeSort (fun e1 e2 : List Char × α => lexLe e1.1 e2.1)).map
            (fun e => digitsVal (dateToken e.1))) := by
        rw [List.pairwise_map]
        refine hpw.imp_of_mem (fun {x y} hx hy hxy => ?_)
        obtain ⟨r1, he1⟩ := wfName_split x.1 (hsortedwf x hx)
        obtain ⟨r2, he2⟩ := wfName_split y.1 (hsortedwf y hy)
        have hlex : lexLe x.1 y.1 = true := hxy
        rw [he1, he2] at hlex
        exact digitsVal_le_of_lexLe _ _ _ _
          (by rw [(hsortedwf x hx).2.1, (hsortedwf y hy).2.1])
          (hsortedwf x hx).2.2.1 (hsortedwf y hy).2.2.1 hlex
      have hmap : ((entries.mergeSort
            (fun e1 e2 : List Char × α => lexLe e1.1 e2.1)).map
          (fun e => (digitsVal (dateToken e.1), e.2))).map Prod.fst =
          (entries.mergeSort (fun e1 e2 : List Char × α => lexLe e1.1 e2.1)).map
            (fun e => digitsVal (dateToken e.1)) := by
        rw [List.map_map]
        rfl
      rw [hmap]
      exact hpairwise.chain'
    · have hmap : ((entries.mergeSort
            (fun e1 e2 : List Char × α => lexLe e1.1 e2.1)).map
          (fun e => (digitsVal (dateToken e.1), e.2))).map Prod.fst =
          (entries.mergeSort (fun e1 e2 : List Char × α => lexLe e1.1 e2.1)).map
            (fun e => digitsVal (dateToken e.1)) := by
        rw [List.map_map]
        rfl
      rw [hmap]
      exact (List.mergeSort_perm entries _).map _
  · intro name items hjson
    rw [load_some_eq]
    simp only [List.filter_cons, hjson, if_true, List.filter_nil]
    rw [if_neg (by simp)]
    rw [List.mapM_cons]
    simp only [rowsOfEntry, List.mapM_nil]
    show Except.ok (List.flatten
        [items.map (fun it => (parseDate8 (dateToken name), it))]) = _
    simp

/-- Witness for the amended C7 at the spec's three-document archive (dates
20150101, 20150102, 20150103) and, for the flat loader, at a document whose
date token fails to parse. -/
theorem dataset_loader_order_amended_witness :
    (∀ e ∈ ([((("20150101_1800_data.json").data), 0),
             ((("20150102_1800_data.json").data), 1),
             ((("20150103_1800_data.json").data), 2)] : List (List Char × Nat)),
        wfName e.1) ∧
    (∃ l, iterYoutubeDays
          ([((("20150101_1800_data.json").data), 0),
            ((("20150102_1800_data.json").data), 1),
            ((("20150103_1800_data.json").data), 2)] : List (List Char × Nat)) =
        Except.ok l ∧
        List.Chain' (fun a b => a ≤ b) (l.map Prod.fst) ∧
        (l.map Prod.fst).Perm
          (([((("20150101_1800_data.json").data), 0),
             ((("20150102_1800_data.json").data), 1),
             ((("20150103_1800_data.json").data), 2)] : List (List Char × Nat)).map
            (fun e => digitsVal (dateToken e.1)))) ∧
    (endsWithChars jsonSuffix (lowerStr (("baddate_data.json").data)) = true ∧
      load_youtube_from_zip
          (some [((("baddate_data.json").data), TopLevelDoc.arr [()])]) =
        Except.ok ([()].map
          (fun it => (parseDate8 (dateToken (("baddate_data.json").data)), it)))) :=
  ⟨by decide,
    (dataset_loader_order_amended (ι := Unit)).1 _ (by decide),
    by decide,
    (dataset_loader_order_amended (α := Unit)).2 _ _ (by decide)⟩

/-- Counterexample to claim C8 as stated: an archive that exists but holds
no JSON document (all of whose documents vacuously have the expected shape)
still fails, with the data-not-found error. -/
theorem loader_empty_archive_counterexample :
    load_youtube_from_zip (ι := Unit) (some []) =
      Except.error LoadError.dataNotFound := rfl

/-- Claim C8 (amended): the loader fails with the data-not-found error when
the source is missing; it fails with the malformed-dataset error when some
JSON document's top level is not the expected array; and for an existing
source with at least one JSON document, all documents of the expected
shape, it succeeds with neither error.  (An existing archive with no JSON
document also fails with the data-not-found error, per the
counterexample.) -/
theorem loader_error_taxonomy {ι : Type} :
    (load_youtube_from_zip (ι := ι) none = Except.error LoadError.dataNotFound) ∧
    (∀ (entries : List (List Char × TopLevelDoc ι)) (name : List Char),
      (name, TopLevelDoc.nonArr) ∈ entries →
      endsWithChars jsonSuffix (lowerStr name) = true →
      load_youtube_from_zip (some entries) =
        Except.error LoadError.malformedDataset) ∧
    (∀ (entries : List (List Char × TopLevelDoc ι)),
      (∃ e ∈ entries, endsWithChars jsonSuffix (lowerStr e.1) = true) →
      (∀ e ∈ entries, ∃ items, e.2 = TopLevelDoc.arr items) →
      ∃ rows, load_youtube_from_zip (some entries) = Except.ok rows) := by
  refine ⟨rfl, ?_, ?_⟩
  · intro entries name hmem hjson
    have hmemf : (name, TopLevelDoc.nonArr) ∈
        entries.filter (fun e => endsWithChars jsonSuffix (lowerStr e.1)) :=
      List.mem_filter.mpr ⟨hmem, by simpa using hjson⟩
    rw [load_some_eq]
    rw [if_neg (by
      rw [List.isEmpty_iff]
      exact List.ne_nil_of_mem hmemf)]
    rw [mapM_except_error rowsOfEntry LoadError.malformedDataset
      rowsOfEntry_shape _ ⟨(name, TopLevelDoc.nonArr), hmemf, rfl⟩]
    rfl
  · intro entries hex hall
    obtain ⟨e0, he0, hj0⟩ := hex
    have hne : entries.filter (fun e => endsWithChars jsonSuffix (lowerStr e.1)) ≠ [] :=
      List.ne_nil_of_mem (List.mem_filter.mpr ⟨he0, by simpa using hj0⟩)
    rw [load_some_eq]
    rw [if_neg (by
      rw [List.isEmpty_iff]
      exact hne)]
    have hok : ∀ x ∈ entries.filter (fun e => endsWithChars jsonSuffix (lowerStr e.1)),
        rowsOfEntry x = Except.ok (rowsVal x) := by
      intro x hx
      have hxe : x ∈ entries := List.mem_of_mem_filter hx
      obtain ⟨items, hxitems⟩ := hall x hxe
      obtain ⟨nm, d⟩ := x
      simp only at hxitems
      subst hxitems
      rfl
    rw [mapM_except_ok rowsOfEntry rowsVal _ hok]
    exact ⟨_, rfl⟩

/-- Witness for the amended C8: a missing source, a JSON document with a
non-array top level, and a well-shaped single-document archive, at concrete
inputs. -/
theorem loader_error_taxonomy_witness :
    (load_youtube_from_zip (ι := Unit) none =
        Except.error LoadError.dataNotFound) ∧
    (load_youtube_from_zip
        (some [((("x.json").data), TopLevelDoc.nonArr (ι := Unit))]) =
      Except.error LoadError.malformedDataset) ∧
    (∃ rows, load_youtube_from_zip
        (some [((("20150101_d.json").data), TopLevelDoc.arr [()])]) =
      Except.ok rows) :=
  ⟨(loader_error_taxonomy (ι := Unit)).1,
    (loader_error_taxonomy (ι := Unit)).2.1
      [((("x.json").data), TopLevelDoc.nonArr)] (("x.json").data)
      (by simp) (by decide),
    (loader_error_taxonomy (ι := Unit)).2.2
      [((("20150101_d.json").data), TopLevelDoc.arr [()])]
      ⟨((("20150101_d.json").data), TopLevelDoc.arr [()]), by simp, by decide⟩
      (by
        intro e he
        simp only [List.mem_singleton] at he
        subst he
        exact ⟨[()], rfl⟩)⟩

end NetworkDynamics
